import Mathlib

/-!
Shallow embedding of `etl/script/uis.py`: a one-shot pipeline converting an
SDMX 2.0 XML export (a data-structure-definition file plus a data file) into
DDF CSV tables.  XML fragments are modelled after the shapes `xmltodict`
produces: a repeated child element becomes a sequence, a unique child element
becomes a single mapping.  Fallible Python code (KeyError, IndexError,
TypeError, AssertionError, pandas `.loc` lookup failure) is modelled with
`Except String`.
-/

namespace UIS

/-! ### Identifier canonicalization (`ddf_utils.str.to_concept_id`)

Modelled from the spec: `to_concept_id` is imported from `ddf_utils.str`,
which is not part of this repository's sources.  The spec describes it as an
identifier-canonicalization function mapping free text to a canonical
lowercase concept id ("lowercase, non-alphanumeric collapsed"), stable and
deterministic.  We model it as: lowercase every character (ASCII), then
replace each maximal run of non-alphanumeric characters by one underscore. -/

def lowerChar (c : Char) : Char :=
  if 'A' ≤ c ∧ c ≤ 'Z' then Char.ofNat (c.toNat + 32) else c

def isAlnumLower (c : Char) : Bool :=
  ('a' ≤ c ∧ c ≤ 'z') ∨ ('0' ≤ c ∧ c ≤ '9')

def normChar (c : Char) : Char :=
  if isAlnumLower (lowerChar c) then lowerChar c else '_'

def collapseUnd : List Char → List Char
  | [] => []
  | [c] => [c]
  | c :: d :: rest =>
    if c = '_' ∧ d = '_' then collapseUnd (d :: rest)
    else c :: collapseUnd (d :: rest)

def to_concept_id (s : String) : String :=
  ⟨collapseUnd (s.data.map normChar)⟩

/-! ### String comparison

Python compares strings lexicographically by code points; pandas
`sort_values` / `sort_index` on string columns uses that order.  We embed it
as an executable lexicographic comparison on the character lists. -/

def charsLe : List Char → List Char → Bool
  | [], _ => true
  | _ :: _, [] => false
  | a :: as, b :: bs =>
    if a < b then true
    else if b < a then false
    else charsLe as bs

def strLe (s t : String) : Bool :=
  charsLe s.data t.data

/-! ### The data reader `_read_data`

The data XML is a list of `Series` elements.  `xmltodict` turns each one
into a nested dict: `Series -> SeriesKey -> Value` is a list of
`(@concept, @value)` attribute pairs when the key has several `Value`
children and a single dict when it has exactly one; likewise
`Series -> Obs` is a list of observations or a single dict.  Python code
that iterates `...['SeriesKey']['Value']` over a single dict iterates its
string keys and then indexes a string with a string, a `TypeError`; we model
that branch as an error. -/

structure KeyValue where
  concept : String
  value : String
deriving DecidableEq, Repr

inductive SKValues where
  | seq : List KeyValue → SKValues
  | single : KeyValue → SKValues
deriving DecidableEq, Repr

structure Obs where
  time : String
  value : String
deriving DecidableEq, Repr

inductive ObsItems where
  | seq : List Obs → ObsItems
  | single : Obs → ObsItems
deriving DecidableEq, Repr

structure SeriesElem where
  key : SKValues
  obs : ObsItems
deriving DecidableEq, Repr

/-- One row of a per-indicator table.  The pandas frame built in
`_read_data` has columns `time`, `<indicator>` (the observation value) and
`location`; cells can in principle be missing (pandas `NaN`), which we model
with `Option`. -/
structure Row where
  time : Option String
  value : Option String
  location : Option String
deriving DecidableEq, Repr

/-- The loop `for i in item_dict['Series']['SeriesKey']['Value']` at
uis.py:64-68: the `EDULIT_IND` value becomes `attrs['key']`, the `LOCATION`
value becomes `attrs['location']`, both canonicalized. -/
def readAttrs (vals : List KeyValue) : Option String × Option String :=
  vals.foldl
    (fun acc i =>
      let acc1 := if i.concept = "EDULIT_IND" then (some (to_concept_id i.value), acc.2) else acc
      if i.concept = "LOCATION" then (acc1.1, some (to_concept_id i.value)) else acc1)
    (none, none)

/-- Reading the series key: a sequence of `Value` children is iterated as in
the source; a single `Value` child parses as a dict, and iterating it yields
its string keys, so `i['@concept']` raises `TypeError`. -/
def seriesAttrs : SKValues → Except String (Option String × Option String)
  | .single _ => .error "TypeError: string indices must be integers"
  | .seq vs => .ok (readAttrs vs)

/-- uis.py:70-76: normalize the `Obs` child(ren) into a list of
`[Time, ObsValue/@value]` pairs. -/
def readObs : ObsItems → List (String × String)
  | .seq os => os.map (fun o => (o.time, o.value))
  | .single o => [(o.time, o.value)]

/-- The observations of a series element, in document order, independent of
the single/sequence parse shape. -/
def obsList : ObsItems → List Obs
  | .seq os => os
  | .single o => [o]

/-- Process one `Series` element: read the key attributes and observations.
Missing `EDULIT_IND` or `LOCATION` values surface as `KeyError` when
`attrs['key']` / `attrs['location']` are read at uis.py:78-83. -/
def processSeries (s : SeriesElem) : Except String (String × String × List (String × String)) :=
  match seriesAttrs s.key with
  | .error e => .error e
  | .ok attrs =>
    let ser := readObs s.obs
    match attrs.1 with
    | none => .error "KeyError: key"
    | some k =>
      match attrs.2 with
      | none => .error "KeyError: location"
      | some loc => .ok (k, loc, ser)

/-- The canonicalized (indicator, location) pair of a series element, when
the element parses. -/
def seriesPair (s : SeriesElem) : Option (String × String) :=
  match processSeries s with
  | .ok r => some (r.1, r.2.1)
  | .error _ => none

/-- Association-list lookup; Python dicts preserve insertion order, so
`all_data` is modelled as an insertion-ordered association list. -/
def alLookup {β : Type} (m : List (String × β)) (k : String) : Option β :=
  (m.find? (fun p => p.1 = k)).map (fun p => p.2)

def alUpdate {β : Type} (m : List (String × β)) (k : String) (v : β) : List (String × β) :=
  m.map (fun p => if p.1 = k then (k, v) else p)

abbrev AllData := List (String × List (String × List (String × String)))

/-- uis.py:78-83: insert one parsed series into `all_data`; a second series
with the same indicator and location hits the
`assert attrs['location'] not in all_data[attrs['key']].keys()`. -/
def insertSeries (m : AllData) (k loc : String) (ser : List (String × String)) :
    Except String AllData :=
  match alLookup m k with
  | none => .ok (m ++ [(k, [(loc, ser)])])
  | some inner =>
    if (alLookup inner loc).isSome then .error "AssertionError"
    else .ok (alUpdate m k (inner ++ [(loc, ser)]))

/-- The main loop of `_read_data` over all `Series` elements. -/
def readSeriesList : List SeriesElem → AllData → Except String AllData
  | [], m => .ok m
  | s :: rest, m =>
    match processSeries s with
    | .error e => .error e
    | .ok r =>
      match insertSeries m r.1 r.2.1 r.2.2 with
      | .error e => .error e
      | .ok m2 => readSeriesList rest m2

/-- uis.py:86-93: for each indicator, concatenate the per-location series
into one table (columns `time`, value, `location`), in insertion order. -/
def concatTables (m : AllData) : List (String × List Row) :=
  m.map (fun p =>
    (p.1, p.2.flatMap (fun q => q.2.map (fun tv => Row.mk (some tv.1) (some tv.2) (some q.1)))))

/-- `_read_data`, starting from the parsed list of `Series` elements (XML
reading and namespace handling are outside the embedding). -/
def _read_data (series : List SeriesElem) : Except String (List (String × List Row)) :=
  match readSeriesList series [] with
  | .error e => .error e
  | .ok m => .ok (concatTables m)

/-- Is the pair (indicator, location) already present in `all_data`? -/
def pairMem (m : AllData) (p : String × String) : Bool :=
  match alLookup m p.1 with
  | none => false
  | some inner => (alLookup inner p.2).isSome

/-! ### The DSD and the extractors

The DSD parses (via `xmltodict`) into code lists reached as
`dsd['message:Structure']['message:CodeLists']['CodeList']`, indexed by
fixed position: position 0 holds the indicator codes, position 1 the
location codes.  A `Code` element carries `@value`, an optional
`@parentCode`, and a `Description` child, which parses as a single dict
(one `Description` element, text under `'#text'`) or as a list of dicts
(several `Description` elements). -/

inductive Desc where
  | single : String → Desc
  | seq : List String → Desc
deriving DecidableEq, Repr

structure Code where
  value : String
  parentCode : Option String
  description : Desc
deriving DecidableEq, Repr

structure CodeList where
  codes : List Code
deriving DecidableEq, Repr

structure DSD where
  codeLists : List CodeList
deriving DecidableEq, Repr

structure ConcRow where
  concept : String
  name : String
  concept_type : String
deriving DecidableEq, Repr

/-- uis.py:114-117: the description text of an indicator code —
`i['Description']['#text']` when the parse gave a dict, otherwise
`i['Description'][0]['#text']` (an `IndexError` on an empty sequence). -/
def descTextConc : Desc → Except String String
  | .single t => .ok t
  | .seq [] => .error "IndexError"
  | .seq (h :: _) => .ok h

/-- A Python `for` loop building a list where each step can raise: the first
error aborts the loop. -/
def mapME {α β : Type} (f : α → Except String β) : List α → Except String (List β)
  | [] => .ok []
  | a :: as =>
    match f a with
    | .error e => .error e
    | .ok b =>
      match mapME f as with
      | .error e => .error e
      | .ok bs => .ok (b :: bs)

/-- The canonicalized concept ids declared by a code list. -/
def canonCodes (cl : CodeList) : List String :=
  cl.codes.map (fun c => to_concept_id c.value)

/-- pandas `conc.loc[data.keys()]` on the frame indexed by `concept`
(uis.py:128-129): for each key, all rows carrying that index label, in key
order; a key absent from the index raises `KeyError`. -/
def locSelect (rows : List (String × Option String × String)) (keys : List String) :
    Except String (List (String × Option String × String)) :=
  match mapME
      (fun k =>
        if (rows.filter (fun r => r.1 = k)).isEmpty then .error "KeyError"
        else .ok (rows.filter (fun r => r.1 = k)))
      keys with
  | .error e => .error e
  | .ok sels => .ok sels.flatten

/-- `extract_concepts_continuous` (uis.py:98-134).  Of the `data` mapping
only the keys are used (`data.keys()`); rows are
`(concept, drillup, name)` triples before the drillup column is dropped. -/
def extract_concepts_continuous (data : List (String × List Row)) (dsd : DSD) :
    Except String (List ConcRow) :=
  match dsd.codeLists[0]? with
  | none => .error "IndexError"
  | some indicators =>
    match mapME
        (fun i =>
          match descTextConc i.description with
          | .error e => .error e
          | .ok nm => .ok (i.value, i.parentCode, nm))
        indicators.codes with
    | .error e => .error e
    | .ok infos =>
      let conc := infos.map (fun t => (to_concept_id t.1, t.2.1.map to_concept_id, t.2.2))
      match locSelect conc (data.map (fun p => p.1)) with
      | .error e => .error e
      | .ok selected =>
        let sorted := List.insertionSort (fun a b => strLe a.1 b.1 = true) selected
        .ok (sorted.map (fun r => ConcRow.mk r.1 r.2.2 "measure"))

/-- First element of a `Description` sequence (used only in theorem
statements; `extract_entities_location` itself errors when the shape is not
a nonempty sequence). -/
def descHead : Desc → String
  | .seq (h :: _) => h
  | .seq [] => ""
  | .single t => t

/-- `extract_entities_location` (uis.py:147-160): one `(location, name)`
record per code in the code list at position 1, via
`c['Description'][0]['#text']` — a `KeyError` when `Description` parsed as a
single dict (no key `0`), an `IndexError` when the sequence is empty. -/
def extract_entities_location (dsd : DSD) : Except String (List (String × String)) :=
  match dsd.codeLists[1]? with
  | none => .error "IndexError"
  | some locs =>
    match mapME
        (fun c =>
          match c.description with
          | .single _ => .error "KeyError: 0"
          | .seq [] => .error "IndexError"
          | .seq (h :: _) => .ok (c.value, h))
        locs.codes with
    | .error e => .error e
    | .ok loc_list => .ok (loc_list.map (fun r => (to_concept_id r.1, r.2)))

/-! ### The datapoints extractor -/

/-- pandas `df.dropna(how='any')` keeps a row iff no cell is missing. -/
def keepRow (r : Row) : Bool :=
  r.time.isSome && r.value.isSome && r.location.isSome

/-- The sort key of `df.sort_values(by=['location', 'time'])`:
lexicographic on (location, time). -/
def rowLeB (a b : Row) : Bool :=
  if charsLe (a.location.getD "").data (b.location.getD "").data then
    if charsLe (b.location.getD "").data (a.location.getD "").data then
      charsLe (a.time.getD "").data (b.time.getD "").data
    else true
  else false

/-- The body of `extract_datapoints` for one indicator table (uis.py:164-168):
drop rows with missing cells, drop rows whose value is the literal string
"NaN", project to (location, time, value) — the row type holds exactly those
columns — and sort by (location, time). -/
def extract_datapoints_one (df : List Row) : List Row :=
  let df1 := df.filter keepRow
  let df2 := df1.filter (fun r => !(r.value == some "NaN"))
  List.insertionSort (fun a b => rowLeB a b = true) df2

/-- Fully consuming the generator `extract_datapoints(data)`: the yielded
`(indicator, table)` pairs, together with the `data` mapping as the loop
leaves it (the loop only rebinds its local `df`; `dropna`, boolean
filtering, column projection and `sort_values` all build new frames). -/
def extract_datapoints (data : List (String × List Row)) :
    List (String × List Row) × List (String × List Row) :=
  match data with
  | [] => ([], [])
  | (k, df) :: rest =>
    let out := extract_datapoints_one df
    let r := extract_datapoints rest
    ((k, out) :: r.1, (k, df) :: r.2)

/-! ### Decidable shape predicates and concrete fixtures -/

/-- `Description` parsed as a nonempty sequence (the only shape
`extract_entities_location` survives). -/
def isSeqDesc : Desc → Bool
  | .seq (_ :: _) => true
  | _ => false

/-- ASCII uppercase letter. -/
def isUpper (c : Char) : Bool :=
  'A' ≤ c ∧ c ≤ 'Z'

/-- A well-formed `Series` element: indicator EDU1, location USA, one
observation. -/
def wSeries : SeriesElem :=
  ⟨.seq [⟨"EDULIT_IND", "EDU1"⟩, ⟨"LOCATION", "USA"⟩], .single ⟨"2000", "1.0"⟩⟩

/-- A `Series` element whose `SeriesKey` has exactly one `Value` child, so
the parse yields a single mapping. -/
def wSeriesSingleKey : SeriesElem :=
  ⟨.single ⟨"EDULIT_IND", "EDU1"⟩, .single ⟨"2000", "1.0"⟩⟩

/-- Indicator code list: one single-`Description` code, one
sequence-`Description` code, one parent code. -/
def wIndicatorList : CodeList :=
  ⟨[⟨"EDU2", none, .single "Indicator Two"⟩,
    ⟨"EDU1", some "EDU2", .seq ["Indicator One", "Indicateur Un"]⟩]⟩

/-- Location code list with sequence-shaped descriptions. -/
def wLocationList : CodeList :=
  ⟨[⟨"USA", none, .seq ["United States"]⟩, ⟨"ARG", none, .seq ["Argentina"]⟩]⟩

def wDSD : DSD :=
  ⟨[wIndicatorList, wLocationList]⟩

/-- A location code list with a code whose `Description` parsed as a single
dict. -/
def wBadLocList : CodeList :=
  ⟨[⟨"USA", none, .single "United States"⟩]⟩

/-- A DSD whose location code list has a code with a single (dict-shaped)
`Description`. -/
def wBadLocDSD : DSD :=
  ⟨[wIndicatorList, wBadLocList]⟩

/-- An indicator code list declaring the same code twice. -/
def wDupCodeList : CodeList :=
  ⟨[⟨"EDU1", none, .single "Indicator One"⟩, ⟨"EDU1", none, .single "Indicator One"⟩]⟩

/-- A DSD whose indicator code list declares the same code twice. -/
def wDupCodeDSD : DSD :=
  ⟨[wDupCodeList]⟩

/-! ## Order facts about the embedded string comparison -/

theorem charsLe_refl : ∀ l : List Char, charsLe l l = true := by
  intro l
  induction l with
  | nil => rfl
  | cons a as ih => simp [charsLe, lt_irrefl, ih]

theorem charsLe_total : ∀ l₁ l₂ : List Char, charsLe l₁ l₂ = true ∨ charsLe l₂ l₁ = true
  | [], _ => Or.inl rfl
  | _ :: _, [] => Or.inr rfl
  | a :: as, b :: bs => by
    rcases lt_trichotomy a b with h | h | h
    · exact Or.inl (by simp [charsLe, h])
    · subst h
      rcases charsLe_total as bs with ih | ih
      · exact Or.inl (by simp [charsLe, lt_irrefl, ih])
      · exact Or.inr (by simp [charsLe, lt_irrefl, ih])
    · exact Or.inr (by simp [charsLe, h])

theorem charsLe_trans :
    ∀ l₁ l₂ l₃ : List Char,
      charsLe l₁ l₂ = true → charsLe l₂ l₃ = true → charsLe l₁ l₃ = true
  | [], _, _, _, _ => rfl
  | _ :: _, [], _, h₁, _ => by simp [charsLe] at h₁
  | _ :: _, _ :: _, [], _, h₂ => by simp [charsLe] at h₂
  | a :: as, b :: bs, c :: cs, h₁, h₂ => by
    by_cases hab : a < b
    · by_cases hbc : b < c
      · simp [charsLe, lt_trans hab hbc]
      · by_cases hcb : c < b
        · simp [charsLe, hbc, hcb] at h₂
        · have hb : b = c := le_antisymm (le_of_not_lt hcb) (le_of_not_lt hbc)
          subst hb
          simp [charsLe, hab]
    · by_cases hba : b < a
      · simp [charsLe, hab, hba] at h₁
      · have ha : a = b := le_antisymm (le_of_not_lt hba) (le_of_not_lt hab)
        subst ha
        simp only [charsLe, lt_irrefl, if_false] at h₁
        by_cases hac : a < c
        · simp [charsLe, hac]
        · by_cases hca : c < a
          · simp [charsLe, hac, hca] at h₂
          · have hc : a = c := le_antisymm (le_of_not_lt hca) (le_of_not_lt hac)
            subst hc
            simp only [charsLe, lt_irrefl, if_false] at h₂
            simp only [charsLe, lt_irrefl, if_false]
            exact charsLe_trans as bs cs h₁ h₂

theorem strLe_total (s t : String) : strLe s t = true ∨ strLe t s = true :=
  charsLe_total s.data t.data

theorem strLe_trans {s t u : String} :
    strLe s t = true → strLe t u = true → strLe s u = true :=
  charsLe_trans s.data t.data u.data

theorem rowLeB_true_iff (a b : Row) :
    rowLeB a b = true ↔
      (charsLe (a.location.getD "").data (b.location.getD "").data = true ∧
        (charsLe (b.location.getD "").data (a.location.getD "").data = true →
          charsLe (a.time.getD "").data (b.time.getD "").data = true)) := by
  unfold rowLeB
  by_cases h1 : charsLe (a.location.getD "").data (b.location.getD "").data = true <;>
    by_cases h2 : charsLe (b.location.getD "").data (a.location.getD "").data = true <;>
      simp [h1, h2]

theorem rowLe_total (a b : Row) : rowLeB a b = true ∨ rowLeB b a = true := by
  rcases charsLe_total (a.location.getD "").data (b.location.getD "").data with h1 | h1
  · by_cases h2 : charsLe (b.location.getD "").data (a.location.getD "").data = true
    · rcases charsLe_total (a.time.getD "").data (b.time.getD "").data with h3 | h3
      · exact Or.inl ((rowLeB_true_iff a b).mpr ⟨h1, fun _ => h3⟩)
      · exact Or.inr ((rowLeB_true_iff b a).mpr ⟨h2, fun _ => h3⟩)
    · exact Or.inl ((rowLeB_true_iff a b).mpr ⟨h1, fun h => absurd h h2⟩)
  · by_cases h2 : charsLe (a.location.getD "").data (b.location.getD "").data = true
    · rcases charsLe_total (a.time.getD "").data (b.time.getD "").data with h3 | h3
      · exact Or.inl ((rowLeB_true_iff a b).mpr ⟨h2, fun _ => h3⟩)
      · exact Or.inr ((rowLeB_true_iff b a).mpr ⟨h1, fun _ => h3⟩)
    · exact Or.inr ((rowLeB_true_iff b a).mpr ⟨h1, fun h => absurd h h2⟩)

theorem rowLe_trans {a b c : Row} :
    rowLeB a b = true → rowLeB b c = true → rowLeB a c = true := by
  intro hab hbc
  obtain ⟨hab1, hab2⟩ := (rowLeB_true_iff a b).mp hab
  obtain ⟨hbc1, hbc2⟩ := (rowLeB_true_iff b c).mp hbc
  refine (rowLeB_true_iff a c).mpr ⟨charsLe_trans _ _ _ hab1 hbc1, fun hca => ?_⟩
  have hba : charsLe (b.location.getD "").data (a.location.getD "").data = true :=
    charsLe_trans _ _ _ hbc1 hca
  have hcb : charsLe (c.location.getD "").data (b.location.getD "").data = true :=
    charsLe_trans _ _ _ hca hab1
  exact charsLe_trans _ _ _ (hab2 hba) (hbc2 hcb)

/-! ## Facts about `mapME` (fallible list traversal) -/

theorem mapME_ok_of_forall {α β : Type} (f : α → Except String β) (g : α → β) :
    ∀ l : List α, (∀ a ∈ l, f a = .ok (g a)) → mapME f l = .ok (l.map g) := by
  intro l
  induction l with
  | nil => intro _; rfl
  | cons a as ih =>
    intro h
    have ha : f a = .ok (g a) := h a (List.mem_cons_self a as)
    have has : mapME f as = .ok (as.map g) := ih fun x hx => h x (List.mem_cons_of_mem a hx)
    simp [mapME, ha, has]

theorem mapME_error_of_mem {α β : Type} (f : α → Except String β) {l : List α} {a : α}
    {e₀ : String} (ha : a ∈ l) (hf : f a = .error e₀) : ∃ e, mapME f l = .error e := by
  induction l with
  | nil => cases ha
  | cons b bs ih =>
    rcases List.mem_cons.mp ha with h | h
    · subst h
      exact ⟨e₀, by simp [mapME, hf]⟩
    · cases hfb : f b with
      | error e => exact ⟨e, by simp [mapME, hfb]⟩
      | ok v =>
        obtain ⟨e, he⟩ := ih h
        exact ⟨e, by simp [mapME, hfb, he]⟩

theorem mapME_ok_mem {α β : Type} {f : α → Except String β} :
    ∀ {l : List α} {bs : List β}, mapME f l = .ok bs → ∀ b ∈ bs, ∃ a ∈ l, f a = .ok b := by
  intro l
  induction l with
  | nil =>
    intro bs h b hb
    simp only [mapME, Except.ok.injEq] at h
    subst h
    cases hb
  | cons x xs ih =>
    intro bs h b hb
    cases hfx : f x with
    | error e => simp [mapME, hfx] at h
    | ok v =>
      cases hxs : mapME f xs with
      | error e => simp [mapME, hfx, hxs] at h
      | ok vs =>
        simp only [mapME, hfx, hxs, Except.ok.injEq] at h
        subst h
        rcases List.mem_cons.mp hb with h | h
        · exact ⟨x, List.mem_cons_self x xs, by rw [hfx, h]⟩
        · obtain ⟨a, ha, hfa⟩ := ih hxs b h
          exact ⟨a, List.mem_cons_of_mem x ha, hfa⟩

/-! ## Facts about association-list lookup, update, and series insertion -/

theorem alLookup_cons {β : Type} (p : String × β) (m : List (String × β)) (q : String) :
    alLookup (p :: m) q = if p.1 = q then some p.2 else alLookup m q := by
  by_cases h : p.1 = q
  · simp [alLookup, List.find?, h]
  · simp [alLookup, List.find?, h]

theorem alUpdate_cons_eq {β : Type} (p : String × β) (m : List (String × β)) {k : String}
    (v : β) (h : p.1 = k) : alUpdate (p :: m) k v = (k, v) :: alUpdate m k v := by
  simp [alUpdate, h]

theorem alUpdate_cons_ne {β : Type} (p : String × β) (m : List (String × β)) {k : String}
    (v : β) (h : ¬p.1 = k) : alUpdate (p :: m) k v = p :: alUpdate m k v := by
  simp [alUpdate, h]

theorem alLookup_append {β : Type} (m₁ m₂ : List (String × β)) (k : String) :
    alLookup (m₁ ++ m₂) k = (alLookup m₁ k).or (alLookup m₂ k) := by
  induction m₁ with
  | nil => simp [alLookup]
  | cons p m₁ ih =>
    by_cases h : p.1 = k
    · simp [alLookup_cons, h]
    · simp [alLookup_cons, h, ih]

theorem alLookup_update_eq {β : Type} (m : List (String × β)) (k : String) (v : β) :
    alLookup (alUpdate m k v) k = (alLookup m k).map (fun _ => v) := by
  induction m with
  | nil => simp [alLookup, alUpdate]
  | cons p m ih =>
    by_cases h : p.1 = k
    · rw [alUpdate_cons_eq p m v h, alLookup_cons, alLookup_cons, if_pos rfl, if_pos h]
      rfl
    · rw [alUpdate_cons_ne p m v h, alLookup_cons, alLookup_cons, if_neg h, if_neg h, ih]

theorem alLookup_update_ne {β : Type} (m : List (String × β)) (k q : String) (v : β)
    (hq : q ≠ k) : alLookup (alUpdate m k v) q = alLookup m q := by
  induction m with
  | nil => simp [alLookup, alUpdate]
  | cons p m ih =>
    by_cases h : p.1 = k
    · rw [alUpdate_cons_eq p m v h, alLookup_cons, alLookup_cons,
        if_neg (fun he => hq he.symm), if_neg (fun he => hq ((h.symm.trans he).symm)), ih]
    · rw [alUpdate_cons_ne p m v h, alLookup_cons, alLookup_cons, ih]

theorem alLookup_singleton {β : Type} (k : String) (v : β) :
    alLookup [(k, v)] k = some v := by
  simp [alLookup_cons]

theorem insertSeries_dup {m : AllData} {k loc : String} (ser : List (String × String))
    (h : pairMem m (k, loc) = true) : insertSeries m k loc ser = .error "AssertionError" := by
  cases hk : alLookup m k with
  | none => simp [pairMem, hk] at h
  | some inner =>
    simp only [pairMem, hk] at h
    simp [insertSeries, hk, h]

theorem insertSeries_pairMem_self {m : AllData} {k loc : String}
    {ser : List (String × String)} {m2 : AllData}
    (h : insertSeries m k loc ser = .ok m2) : pairMem m2 (k, loc) = true := by
  cases hk : alLookup m k with
  | none =>
    simp only [insertSeries, hk, Except.ok.injEq] at h
    subst h
    simp [pairMem, alLookup_append, hk, alLookup_singleton]
  | some inner =>
    cases hloc : (alLookup inner loc).isSome with
    | true => simp [insertSeries, hk, hloc] at h
    | false =>
      simp only [insertSeries, hk, hloc, Bool.false_eq_true, if_false, Except.ok.injEq] at h
      subst h
      simp [pairMem, alLookup_update_eq, hk, alLookup_append, alLookup_singleton]

theorem insertSeries_pairMem_mono {m : AllData} {k loc : String}
    {ser : List (String × String)} {m2 : AllData} {q : String × String}
    (h : insertSeries m k loc ser = .ok m2) (hq : pairMem m q = true) :
    pairMem m2 q = true := by
  cases hkq : alLookup m q.1 with
  | none => simp [pairMem, hkq] at hq
  | some innq =>
    simp only [pairMem, hkq] at hq
    cases hk : alLookup m k with
    | none =>
      simp only [insertSeries, hk, Except.ok.injEq] at h
      subst h
      simp [pairMem, alLookup_append, hkq, Option.or, hq]
    | some inner =>
      cases hloc : (alLookup inner loc).isSome with
      | true => simp [insertSeries, hk, hloc] at h
      | false =>
        simp only [insertSeries, hk, hloc, Bool.false_eq_true, if_false, Except.ok.injEq] at h
        subst h
        by_cases hq1 : q.1 = k
        · subst hq1
          have : innq = inner := by rw [hkq] at hk; exact Option.some.inj hk
          subst this
          simp [pairMem, alLookup_update_eq, hkq, alLookup_append, Option.or]
          cases h2 : alLookup innq q.2 with
          | none => simp [h2] at hq
          | some s => simp
        · simp [pairMem, alLookup_update_ne _ _ _ _ hq1, hkq, hq]

/-! ## Facts about the series loop -/

theorem seriesPair_ok {s : SeriesElem} {p : String × String} (h : seriesPair s = some p) :
    ∃ ser, processSeries s = .ok (p.1, p.2, ser) := by
  cases hps : processSeries s with
  | error e => simp [seriesPair, hps] at h
  | ok r =>
    simp only [seriesPair, hps, Option.some.injEq] at h
    exact ⟨r.2.2, by rw [← h]⟩

theorem readSeriesList_error_of_pairMem :
    ∀ (l₂ : List SeriesElem) (s₂ : SeriesElem) (l₃ : List SeriesElem) (p : String × String)
      (m : AllData), seriesPair s₂ = some p → pairMem m p = true →
      ∃ e, readSeriesList (l₂ ++ s₂ :: l₃) m = .error e := by
  intro l₂
  induction l₂ with
  | nil =>
    intro s₂ l₃ p m h₂ hm
    obtain ⟨ser, hps⟩ := seriesPair_ok h₂
    have hins : insertSeries m p.1 p.2 ser = .error "AssertionError" :=
      insertSeries_dup ser (by simpa using hm)
    exact ⟨"AssertionError", by simp [readSeriesList, hps, hins]⟩
  | cons a l₂ ih =>
    intro s₂ l₃ p m h₂ hm
    cases hpa : processSeries a with
    | error e => exact ⟨e, by simp [readSeriesList, hpa]⟩
    | ok r =>
      cases hins : insertSeries m r.1 r.2.1 r.2.2 with
      | error e => exact ⟨e, by simp [readSeriesList, hpa, hins]⟩
      | ok m2 =>
        obtain ⟨e, he⟩ := ih s₂ l₃ p m2 h₂ (insertSeries_pairMem_mono hins hm)
        exact ⟨e, by simp [readSeriesList, hpa, hins, he]⟩

theorem readSeriesList_error_of_dup :
    ∀ (l₁ : List SeriesElem) (s₁ : SeriesElem) (l₂ : List SeriesElem) (s₂ : SeriesElem)
      (l₃ : List SeriesElem) (p : String × String) (m : AllData),
      seriesPair s₁ = some p → seriesPair s₂ = some p →
      ∃ e, readSeriesList (l₁ ++ s₁ :: (l₂ ++ s₂ :: l₃)) m = .error e := by
  intro l₁
  induction l₁ with
  | nil =>
    intro s₁ l₂ s₂ l₃ p m h₁ h₂
    obtain ⟨ser, hps⟩ := seriesPair_ok h₁
    cases hins : insertSeries m p.1 p.2 ser with
    | error e => exact ⟨e, by simp [readSeriesList, hps, hins]⟩
    | ok m2 =>
      have hmem : pairMem m2 p = true := by
        have := insertSeries_pairMem_self hins
        simpa using this
      obtain ⟨e, he⟩ := readSeriesList_error_of_pairMem l₂ s₂ l₃ p m2 h₂ hmem
      exact ⟨e, by simp [readSeriesList, hps, hins, he]⟩
  | cons a l₁ ih =>
    intro s₁ l₂ s₂ l₃ p m h₁ h₂
    cases hpa : processSeries a with
    | error e => exact ⟨e, by simp [readSeriesList, hpa]⟩
    | ok r =>
      cases hins : insertSeries m r.1 r.2.1 r.2.2 with
      | error e => exact ⟨e, by simp [readSeriesList, hpa, hins]⟩
      | ok m2 =>
        obtain ⟨e, he⟩ := ih s₁ l₂ s₂ l₃ p m2 h₁ h₂
        exact ⟨e, by simp [readSeriesList, hpa, hins, he]⟩

theorem readSeriesList_error_of_singleKey :
    ∀ (l : List SeriesElem) (s : SeriesElem) (kv : KeyValue) (m : AllData),
      s ∈ l → s.key = .single kv → ∃ e, readSeriesList l m = .error e := by
  intro l
  induction l with
  | nil => intro s kv m hs _; cases hs
  | cons a as ih =>
    intro s kv m hs hk
    rcases List.mem_cons.mp hs with h | h
    · subst h
      have hpa : processSeries s = .error "TypeError: string indices must be integers" := by
        simp [processSeries, seriesAttrs, hk]
      exact ⟨"TypeError: string indices must be integers", by simp [readSeriesList, hpa]⟩
    · cases hpa : processSeries a with
      | error e => exact ⟨e, by simp [readSeriesList, hpa]⟩
      | ok r =>
        cases hins : insertSeries m r.1 r.2.1 r.2.2 with
        | error e => exact ⟨e, by simp [readSeriesList, hpa, hins]⟩
        | ok m2 =>
          obtain ⟨e, he⟩ := ih s kv m2 h hk
          exact ⟨e, by simp [readSeriesList, hpa, hins, he]⟩

/-! ## Facts about identifier canonicalization -/

theorem isAlnumLower_not_upper {c : Char} (h : isAlnumLower c = true) :
    ¬('A' ≤ c ∧ c ≤ 'Z') := by
  simp only [isAlnumLower, Bool.decide_or, Bool.or_eq_true, decide_eq_true_eq] at h
  rintro ⟨hA, hZ⟩
  rcases h with ⟨h1, _⟩ | ⟨_, h2⟩
  · exact absurd (le_trans h1 hZ) (by decide)
  · exact absurd (le_trans hA h2) (by decide)

theorem lowerChar_fix {c : Char} (h : isAlnumLower c = true) : lowerChar c = c := by
  unfold lowerChar
  rw [if_neg (isAlnumLower_not_upper h)]

theorem normChar_idem (c : Char) : normChar (normChar c) = normChar c := by
  by_cases h : isAlnumLower (lowerChar c) = true
  · have h1 : normChar c = lowerChar c := by simp [normChar, h]
    rw [h1]
    have h2 : lowerChar (lowerChar c) = lowerChar c := lowerChar_fix h
    simp [normChar, h2, h]
  · have h1 : normChar c = '_' := by simp [normChar, h]
    rw [h1]
    rfl

theorem normChar_not_upper (c : Char) : isUpper (normChar c) = false := by
  by_cases h : isAlnumLower (lowerChar c) = true
  · simp only [normChar, h, if_true, isUpper]
    exact decide_eq_false (isAlnumLower_not_upper h)
  · simp only [normChar, h, if_false]
    rfl

theorem mem_collapseUnd : ∀ (l : List Char) (c : Char), c ∈ collapseUnd l → c ∈ l
  | [], _, h => h
  | [_], _, h => h
  | a :: b :: rest, c, h => by
    by_cases hab : a = '_' ∧ b = '_'
    · have h2 : c ∈ collapseUnd (b :: rest) := by simpa [collapseUnd, hab] using h
      exact List.mem_cons_of_mem a (mem_collapseUnd (b :: rest) c h2)
    · have h2 : c ∈ a :: collapseUnd (b :: rest) := by simpa [collapseUnd, hab] using h
      rcases List.mem_cons.mp h2 with h3 | h3
      · exact h3 ▸ List.mem_cons_self a _
      · exact List.mem_cons_of_mem a (mem_collapseUnd (b :: rest) c h3)

theorem collapseUnd_cons_ne (d : Char) (rest : List Char) (hd : d ≠ '_') :
    ∃ t, collapseUnd (d :: rest) = d :: t := by
  cases rest with
  | nil => exact ⟨[], rfl⟩
  | cons e es =>
    have h : ¬(d = '_' ∧ e = '_') := fun h => hd h.1
    exact ⟨collapseUnd (e :: es), by simp [collapseUnd, h]⟩

theorem collapseUnd_chain :
    ∀ l : List Char, List.Chain' (fun c d => ¬(c = '_' ∧ d = '_')) (collapseUnd l)
  | [] => List.chain'_nil
  | [c] => by simp [collapseUnd]
  | a :: b :: rest => by
    by_cases hab : a = '_' ∧ b = '_'
    · simpa [collapseUnd, hab] using collapseUnd_chain (b :: rest)
    · rw [show collapseUnd (a :: b :: rest) = a :: collapseUnd (b :: rest) from by
        simp [collapseUnd, hab]]
      rw [List.chain'_cons']
      refine ⟨?_, collapseUnd_chain (b :: rest)⟩
      intro y hy
      by_cases ha : a = '_'
      · have hb : b ≠ '_' := fun h => hab ⟨ha, h⟩
        obtain ⟨t, ht⟩ := collapseUnd_cons_ne b rest hb
        rw [ht] at hy
        simp only [List.head?_cons, Option.mem_def, Option.some.injEq] at hy
        subst hy
        exact fun h => hb h.2
      · exact fun h => ha h.1

theorem collapseUnd_eq_self :
    ∀ l : List Char, List.Chain' (fun c d => ¬(c = '_' ∧ d = '_')) l → collapseUnd l = l
  | [], _ => rfl
  | [_], _ => rfl
  | a :: b :: rest, h => by
    rw [List.chain'_cons] at h
    rw [show collapseUnd (a :: b :: rest) = a :: collapseUnd (b :: rest) from by
      simp [collapseUnd, h.1]]
    rw [collapseUnd_eq_self (b :: rest) h.2]

theorem map_fix {f : Char → Char} :
    ∀ {l : List Char}, (∀ c ∈ l, f c = c) → l.map f = l := by
  intro l
  induction l with
  | nil => intro _; rfl
  | cons a as ih =>
    intro h
    rw [List.map_cons, h a (List.mem_cons_self a as),
      ih fun c hc => h c (List.mem_cons_of_mem a hc)]

/-! ## Facts about label selection in the concepts extractor -/

theorem filter_nil_of_not_mem {α β : Type} [DecidableEq β] (f : α → β) (k : β) :
    ∀ l : List α, k ∉ l.map f → l.filter (fun x => f x = k) = [] := by
  intro l
  induction l with
  | nil => intro _; rfl
  | cons a as ih =>
    intro h
    rw [List.map_cons, List.mem_cons] at h
    push_neg at h
    rw [List.filter_cons, if_neg, ih h.2]
    simp only [decide_eq_true_eq]
    exact fun he => h.1 he.symm

theorem filter_singleton_of_nodup {α β : Type} [DecidableEq β] (f : α → β) (k : β) :
    ∀ l : List α, (l.map f).Nodup → k ∈ l.map f →
      ∃ a, l.filter (fun x => f x = k) = [a] ∧ f a = k := by
  intro l
  induction l with
  | nil => intro _ hk; cases hk
  | cons a as ih =>
    intro hnd hk
    rw [List.map_cons, List.nodup_cons] at hnd
    by_cases hfa : f a = k
    · refine ⟨a, ?_, hfa⟩
      rw [List.filter_cons, if_pos (by simp [hfa]),
        filter_nil_of_not_mem f k as (hfa ▸ hnd.1)]
    · rw [List.map_cons, List.mem_cons] at hk
      rcases hk with h | h
      · exact absurd h.symm hfa
      · obtain ⟨x, hx1, hx2⟩ := ih hnd.2 h
        refine ⟨x, ?_, hx2⟩
        rw [List.filter_cons, if_neg (by simp [hfa]), hx1]

theorem flatten_filters_map_fst {rows : List (String × Option String × String)} :
    ∀ keys : List String, (rows.map (fun r => r.1)).Nodup →
      (∀ k ∈ keys, k ∈ rows.map (fun r => r.1)) →
      ((keys.map (fun k => rows.filter (fun r => r.1 = k))).flatten).map (fun r => r.1)
        = keys := by
  intro keys
  induction keys with
  | nil => intro _ _; rfl
  | cons k ks ih =>
    intro hnd hsub
    obtain ⟨a, ha, hfa⟩ :=
      filter_singleton_of_nodup (fun r => r.1) k rows hnd (hsub k (List.mem_cons_self k ks))
    rw [List.map_cons, List.flatten_cons, List.map_append, ha, List.map_cons, List.map_nil,
      hfa, ih hnd fun q hq => hsub q (List.mem_cons_of_mem k hq)]
    rfl

theorem locSelect_ok {rows : List (String × Option String × String)}
    (keys : List String) (hnd : (rows.map (fun r => r.1)).Nodup)
    (hsub : ∀ k ∈ keys, k ∈ rows.map (fun r => r.1)) :
    locSelect rows keys = .ok ((keys.map (fun k => rows.filter (fun r => r.1 = k))).flatten) := by
  have hme : mapME
      (fun k =>
        if (rows.filter (fun r => r.1 = k)).isEmpty then Except.error "KeyError"
        else .ok (rows.filter (fun r => r.1 = k)))
      keys = .ok (keys.map (fun k => rows.filter (fun r => r.1 = k))) := by
    apply mapME_ok_of_forall
    intro k hk
    obtain ⟨a, ha, _⟩ := filter_singleton_of_nodup (fun r => r.1) k rows hnd (hsub k hk)
    simp [ha]
  simp [locSelect, hme]

theorem locSelect_error {rows : List (String × Option String × String)}
    {keys : List String} {k : String} (hk : k ∈ keys)
    (hmiss : k ∉ rows.map (fun r => r.1)) :
    ∃ e, locSelect rows keys = .error e := by
  have hfk : (if (rows.filter (fun r => r.1 = k)).isEmpty then Except.error "KeyError"
      else Except.ok (rows.filter (fun r => r.1 = k)))
      = (Except.error "KeyError" : Except String (List (String × Option String × String))) := by
    simp [filter_nil_of_not_mem (fun r : String × Option String × String => r.1) k rows hmiss]
  obtain ⟨e, he⟩ := mapME_error_of_mem
    (fun q =>
      if (rows.filter (fun r => r.1 = q)).isEmpty then Except.error "KeyError"
      else Except.ok (rows.filter (fun r => r.1 = q))) hk hfk
  exact ⟨e, by simp [locSelect, he]⟩

theorem sorted_fst_facts (sel : List (String × Option String × String)) (keys : List String)
    (hself : sel.map (fun r => r.1) = keys) :
    ((List.insertionSort (fun a b => strLe a.1 b.1 = true) sel).map (fun r => r.1)).Perm keys ∧
      List.Sorted (fun a b => strLe a b = true)
        ((List.insertionSort (fun a b => strLe a.1 b.1 = true) sel).map (fun r => r.1)) := by
  constructor
  · rw [← hself]
    exact (List.perm_insertionSort _ _).map _
  · have hs := @List.sorted_insertionSort (String × Option String × String)
      (fun a b => strLe a.1 b.1 = true)
      (fun a b => inferInstanceAs (Decidable (strLe a.1 b.1 = true)))
      ⟨fun a b => strLe_total a.1 b.1⟩ ⟨fun a b c hab hbc => strLe_trans hab hbc⟩ sel
    exact List.pairwise_map.mpr hs

theorem descTextConc_ok {d : Desc} (h : (descTextConc d).isOk = true) :
    descTextConc d = .ok (descHead d) := by
  cases d with
  | single t => rfl
  | seq l =>
    cases l with
    | nil => simp [descTextConc, Except.isOk, Except.toBool] at h
    | cons x xs => rfl

/-! ## Claim theorems -/

/-- C1: at most one series per (indicator, location) pair — whenever two
`Series` elements of the data file canonicalize to the same
(indicator, location) pair, `_read_data` raises (the duplicate-location
assertion, or an earlier error) instead of returning a mapping. -/
theorem read_data_duplicate_pair_raises (l₁ l₂ l₃ : List SeriesElem) (s₁ s₂ : SeriesElem)
    (p : String × String) (h₁ : seriesPair s₁ = some p) (h₂ : seriesPair s₂ = some p) :
    ∃ e, _read_data (l₁ ++ s₁ :: (l₂ ++ s₂ :: l₃)) = .error e := by
  obtain ⟨e, he⟩ := readSeriesList_error_of_dup l₁ s₁ l₂ s₂ l₃ p [] h₁ h₂
  exact ⟨e, by simp [_read_data, he]⟩

/-- Witness for C1: a data file with the same (EDU1, USA) series twice. -/
theorem read_data_duplicate_pair_raises_witness :
    seriesPair wSeries = some ("edu1", "usa") ∧
      ∃ e, _read_data ([] ++ wSeries :: ([] ++ wSeries :: [])) = .error e :=
  ⟨rfl, read_data_duplicate_pair_raises [] [] [] wSeries wSeries ("edu1", "usa") rfl rfl⟩

/-- C9: a `Series` whose `SeriesKey` has exactly one `Value` child parses as
a single mapping, and `_read_data` raises while reading the series key — the
single/sequence normalization is applied to `Obs` but not to `SeriesKey`
`Value` children. -/
theorem read_data_single_key_value_raises (series : List SeriesElem) (s : SeriesElem)
    (kv : KeyValue) (hs : s ∈ series) (hk : s.key = .single kv) :
    ∃ e, _read_data series = .error e := by
  obtain ⟨e, he⟩ := readSeriesList_error_of_singleKey series s kv [] hs hk
  exact ⟨e, by simp [_read_data, he]⟩

/-- Witness for C9: a one-series data file whose series key has a single
`Value` child. -/
theorem read_data_single_key_value_raises_witness :
    wSeriesSingleKey ∈ [wSeriesSingleKey] ∧
      wSeriesSingleKey.key = SKValues.single ⟨"EDULIT_IND", "EDU1"⟩ ∧
      ∃ e, _read_data [wSeriesSingleKey] = .error e :=
  ⟨by decide, rfl,
    read_data_single_key_value_raises [wSeriesSingleKey] wSeriesSingleKey
      ⟨"EDULIT_IND", "EDU1"⟩ (by decide) rfl⟩

/-- C5: both observation shapes normalize to the same result — the sequence
of (time, value) pairs of the observations in document order; in particular
a single `Obs` child and a one-element `Obs` sequence read identically. -/
theorem read_data_obs_shapes_normalized :
    (∀ o : ObsItems, readObs o = (obsList o).map (fun ob => (ob.time, ob.value))) ∧
      ∀ ob : Obs, readObs (ObsItems.single ob) = readObs (ObsItems.seq [ob]) := by
  constructor
  · intro o
    cases o <;> rfl
  · intro ob
    rfl

/-- C10: fully consuming the `extract_datapoints` generator leaves the input
mapping unchanged — every key still maps to the table it held before. -/
theorem extract_datapoints_leaves_input_unchanged :
    ∀ data : List (String × List Row), (extract_datapoints data).2 = data := by
  intro data
  induction data with
  | nil => rfl
  | cons p rest ih =>
    cases p with
    | mk k df => simp [extract_datapoints, ih]

/-- C2: `extract_datapoints` yields, for every indicator table of the input
mapping, exactly the rows with no missing cell and value not the literal
string "NaN" (so a table whose rows are all dropped yields the empty table),
projected to the (location, time, value) columns of `Row`, sorted ascending
by (location, time). -/
theorem extract_datapoints_filters_and_sorts :
    (∀ data : List (String × List Row),
        (extract_datapoints data).1 = data.map (fun p => (p.1, extract_datapoints_one p.2))) ∧
      ∀ df : List Row,
        (extract_datapoints_one df).Perm
            (df.filter (fun r => keepRow r && !(r.value == some "NaN"))) ∧
          List.Sorted (fun a b => rowLeB a b = true) (extract_datapoints_one df) := by
  constructor
  · intro data
    induction data with
    | nil => rfl
    | cons p rest ih =>
      cases p with
      | mk k df => simp [extract_datapoints, ih]
  · intro df
    have h3 : extract_datapoints_one df =
        List.insertionSort (fun a b => rowLeB a b = true)
          ((df.filter keepRow).filter (fun r => !(r.value == some "NaN"))) := rfl
    have h2 : (df.filter keepRow).filter (fun r => !(r.value == some "NaN")) =
        df.filter (fun r => keepRow r && !(r.value == some "NaN")) := by
      rw [List.filter_filter]
      exact List.filter_congr (fun a _ => Bool.and_comm _ _)
    constructor
    · rw [h3, h2]
      exact List.perm_insertionSort _ _
    · rw [h3]
      exact @List.sorted_insertionSort Row (fun a b => rowLeB a b = true)
        (fun a b => inferInstanceAs (Decidable (rowLeB a b = true)))
        ⟨rowLe_total⟩ ⟨fun a b c hab hbc => rowLe_trans hab hbc⟩ _

/-- C7: identifier canonicalization is idempotent —
`to_concept_id (to_concept_id x) = to_concept_id x` — and its output is a
canonical lowercase concept id (no uppercase letter survives); as a pure
function it is deterministic across calls. -/
theorem to_concept_id_idempotent_and_lowercase :
    ∀ x : String, to_concept_id (to_concept_id x) = to_concept_id x ∧
      (to_concept_id x).data.all (fun c => !(isUpper c)) = true := by
  intro x
  have hout : ∀ c ∈ (to_concept_id x).data, ∃ c₀, c = normChar c₀ := by
    intro c hc
    have hm : c ∈ x.data.map normChar := mem_collapseUnd _ c hc
    obtain ⟨c₀, _, h⟩ := List.mem_map.mp hm
    exact ⟨c₀, h.symm⟩
  constructor
  · show (⟨collapseUnd ((to_concept_id x).data.map normChar)⟩ : String) = to_concept_id x
    have h1 : (to_concept_id x).data.map normChar = (to_concept_id x).data := by
      apply map_fix
      intro c hc
      obtain ⟨c₀, rfl⟩ := hout c hc
      exact normChar_idem c₀
    have h2 : collapseUnd ((to_concept_id x).data) = (to_concept_id x).data :=
      collapseUnd_eq_self _ (collapseUnd_chain (x.data.map normChar))
    rw [h1, h2]
  · rw [List.all_eq_true]
    intro c hc
    obtain ⟨c₀, rfl⟩ := hout c hc
    simp [normChar_not_upper]

/-- C3 (amended): when, additionally, the canonicalized codes of the DSD's
first code list are pairwise distinct, `extract_concepts_continuous` returns
exactly one row per indicator present in both the DSD and the data mapping,
sorted ascending by concept id with no duplicates, with
`concept_type = "measure"` in every row. -/
theorem extract_concepts_continuous_distinct_codes
    (data : List (String × List Row)) (dsd : DSD) (cl : CodeList)
    (h0 : dsd.codeLists[0]? = some cl)
    (hdesc : ∀ c ∈ cl.codes, (descTextConc c.description).isOk = true)
    (hnd : (data.map (fun p => p.1)).Nodup)
    (hsub : ∀ k ∈ data.map (fun p => p.1), k ∈ canonCodes cl)
    (hdist : (canonCodes cl).Nodup) :
    ∃ conc, extract_concepts_continuous data dsd = .ok conc ∧
      (conc.map ConcRow.concept).Perm (data.map (fun p => p.1)) ∧
      List.Sorted (fun a b => strLe a b = true) (conc.map ConcRow.concept) ∧
      (conc.map ConcRow.concept).Nodup ∧
      ∀ r ∈ conc, r.concept_type = "measure" := by
  have hmap : mapME (fun i => match descTextConc i.description with
      | .error e => Except.error e
      | .ok nm => Except.ok (i.value, i.parentCode, nm)) cl.codes
      = .ok (cl.codes.map (fun c => (c.value, c.parentCode, descHead c.description))) := by
    apply mapME_ok_of_forall
    intro c hc
    rw [descTextConc_ok (hdesc c hc)]
  have hconc : (cl.codes.map (fun c => (c.value, c.parentCode, descHead c.description))).map
      (fun t => (to_concept_id t.1, t.2.1.map to_concept_id, t.2.2))
      = cl.codes.map (fun c =>
          (to_concept_id c.value, c.parentCode.map to_concept_id, descHead c.description)) := by
    rw [List.map_map]
    rfl
  have hfst : (cl.codes.map (fun c =>
      (to_concept_id c.value, c.parentCode.map to_concept_id, descHead c.description))).map
        (fun r => r.1) = canonCodes cl := by
    rw [List.map_map]
    rfl
  have hnd2 : ((cl.codes.map (fun c =>
      (to_concept_id c.value, c.parentCode.map to_concept_id, descHead c.description))).map
        (fun r => r.1)).Nodup := by
    rw [hfst]; exact hdist
  have hsub2 : ∀ k ∈ data.map (fun p => p.1),
      k ∈ (cl.codes.map (fun c =>
        (to_concept_id c.value, c.parentCode.map to_concept_id, descHead c.description))).map
          (fun r => r.1) := by
    intro k hk
    rw [hfst]; exact hsub k hk
  have hsel := locSelect_ok (data.map (fun p => p.1)) hnd2 hsub2
  have hselfst := flatten_filters_map_fst (data.map (fun p => p.1)) hnd2 hsub2
  obtain ⟨hperm, hsort⟩ := sorted_fst_facts _ _ hselfst
  refine ⟨(List.insertionSort (fun a b => strLe a.1 b.1 = true)
      (((data.map (fun p => p.1)).map (fun k =>
        (cl.codes.map (fun c =>
          (to_concept_id c.value, c.parentCode.map to_concept_id,
            descHead c.description))).filter (fun r => r.1 = k))).flatten)).map
      (fun r => ConcRow.mk r.1 r.2.2 "measure"), ?_, ?_, ?_, ?_, ?_⟩
  · simp only [extract_concepts_continuous, h0]
    rw [hmap]
    simp only [hconc]
    rw [hsel]
  · simpa [List.map_map, Function.comp] using hperm
  · simpa [List.map_map, Function.comp] using hsort
  · simpa [List.map_map, Function.comp] using hperm.nodup_iff.mpr hnd
  · intro r hr
    obtain ⟨x, _, rfl⟩ := List.mem_map.mp hr
    rfl

/-- Counterexample to C3 as stated: a DSD whose first code list declares
the code EDU1 twice.  Every data indicator ("edu1") appears in that code
list, yet the output has two rows for the single indicator present in both
DSD and data — not exactly one row, and with a duplicate concept id. -/
theorem extract_concepts_continuous_duplicate_code_cex :
    wDupCodeDSD.codeLists[0]? = some wDupCodeList ∧
      "edu1" ∈ canonCodes wDupCodeList ∧
      extract_concepts_continuous [("edu1", [])] wDupCodeDSD =
        .ok [ConcRow.mk "edu1" "Indicator One" "measure",
          ConcRow.mk "edu1" "Indicator One" "measure"] ∧
      ¬ ([ConcRow.mk "edu1" "Indicator One" "measure",
          ConcRow.mk "edu1" "Indicator One" "measure"].map ConcRow.concept).Nodup :=
  ⟨rfl, by decide, rfl, by decide⟩

/-- Witness for the amended C3 on a concrete DSD with two distinct
indicator codes, both present in the data. -/
theorem extract_concepts_continuous_distinct_codes_witness :
    wDSD.codeLists[0]? = some wIndicatorList ∧
      (∀ c ∈ wIndicatorList.codes, (descTextConc c.description).isOk = true) ∧
      ([("edu1", ([] : List Row)), ("edu2", [])].map (fun p => p.1)).Nodup ∧
      (∀ k ∈ [("edu1", ([] : List Row)), ("edu2", [])].map (fun p => p.1),
        k ∈ canonCodes wIndicatorList) ∧
      (canonCodes wIndicatorList).Nodup ∧
      ∃ conc, extract_concepts_continuous [("edu1", []), ("edu2", [])] wDSD = .ok conc ∧
        (conc.map ConcRow.concept).Perm
          ([("edu1", ([] : List Row)), ("edu2", [])].map (fun p => p.1)) ∧
        List.Sorted (fun a b => strLe a b = true) (conc.map ConcRow.concept) ∧
        (conc.map ConcRow.concept).Nodup ∧
        ∀ r ∈ conc, r.concept_type = "measure" :=
  ⟨rfl, by decide, by decide, by decide, by decide,
    extract_concepts_continuous_distinct_codes [("edu1", []), ("edu2", [])] wDSD
      wIndicatorList rfl (by decide) (by decide) (by decide) (by decide)⟩

/-- C4: an indicator present in the data mapping but absent (after
canonicalization) from the DSD's first code list makes
`extract_concepts_continuous` raise a lookup error instead of returning a
table. -/
theorem extract_concepts_continuous_missing_code_raises
    (data : List (String × List Row)) (dsd : DSD) (cl : CodeList) (k : String)
    (h0 : dsd.codeLists[0]? = some cl) (hk : k ∈ data.map (fun p => p.1))
    (hmiss : k ∉ canonCodes cl) :
    ∃ e, extract_concepts_continuous data dsd = .error e := by
  cases hmap : mapME (fun i => match descTextConc i.description with
      | .error e => Except.error e
      | .ok nm => Except.ok (i.value, i.parentCode, nm)) cl.codes with
  | error e => exact ⟨e, by simp [extract_concepts_continuous, h0, hmap]⟩
  | ok infos =>
    have hmem : k ∉ (infos.map
        (fun t => (to_concept_id t.1, t.2.1.map to_concept_id, t.2.2))).map
          (fun r => r.1) := by
      intro hin
      obtain ⟨x, hx, hxk⟩ := List.mem_map.mp hin
      obtain ⟨t, ht, rfl⟩ := List.mem_map.mp hx
      obtain ⟨a, ha, hfa⟩ := mapME_ok_mem hmap t ht
      cases hd : descTextConc a.description with
      | error e => rw [hd] at hfa; cases hfa
      | ok nm =>
        rw [hd] at hfa
        have ht1 : t.1 = a.value := by
          cases hfa
          rfl
        apply hmiss
        rw [← hxk]
        simp only [ht1]
        exact List.mem_map_of_mem (fun c => to_concept_id c.value) ha
    obtain ⟨e, he⟩ := locSelect_error hk hmem
    exact ⟨e, by simp [extract_concepts_continuous, h0, hmap, he]⟩

/-- Witness for C4: the data mapping mentions indicator edu9, which the DSD
does not declare. -/
theorem extract_concepts_continuous_missing_code_raises_witness :
    wDSD.codeLists[0]? = some wIndicatorList ∧
      "edu9" ∈ [("edu9", ([] : List Row))].map (fun p => p.1) ∧
      "edu9" ∉ canonCodes wIndicatorList ∧
      ∃ e, extract_concepts_continuous [("edu9", [])] wDSD = .error e :=
  ⟨rfl, by decide, by decide,
    extract_concepts_continuous_missing_code_raises [("edu9", [])] wDSD wIndicatorList
      "edu9" rfl (by decide) (by decide)⟩

/-- C6: when every location code's `Description` parsed as a (nonempty)
sequence, `extract_entities_location` returns one (location, name) record
per code of the code list at position 1, id canonicalized, in order and
with no filtering against the data (the function never sees the data
mapping). -/
theorem extract_entities_location_emits_all_codes
    (dsd : DSD) (locs : CodeList)
    (h1 : dsd.codeLists[1]? = some locs)
    (hshape : ∀ c ∈ locs.codes, isSeqDesc c.description = true) :
    extract_entities_location dsd =
      .ok (locs.codes.map (fun c => (to_concept_id c.value, descHead c.description))) := by
  have hmap : mapME (fun c => match c.description with
      | Desc.single _ => Except.error "KeyError: 0"
      | Desc.seq [] => Except.error "IndexError"
      | Desc.seq (h :: _) => Except.ok (c.value, h)) locs.codes
      = .ok (locs.codes.map (fun c => (c.value, descHead c.description))) := by
    apply mapME_ok_of_forall
    intro c hc
    have hs := hshape c hc
    cases hd : c.description with
    | single t => rw [hd] at hs; simp [isSeqDesc] at hs
    | seq l =>
      cases l with
      | nil => rw [hd] at hs; simp [isSeqDesc] at hs
      | cons x xs => simp [hd, descHead]
  simp only [extract_entities_location, h1]
  rw [hmap]
  simp [List.map_map]

/-- Witness for C6: the two declared locations are emitted, canonicalized,
whether or not any datapoint references them. -/
theorem extract_entities_location_emits_all_codes_witness :
    wDSD.codeLists[1]? = some wLocationList ∧
      (∀ c ∈ wLocationList.codes, isSeqDesc c.description = true) ∧
      extract_entities_location wDSD =
        .ok (wLocationList.codes.map (fun c => (to_concept_id c.value, descHead c.description))) :=
  ⟨rfl, by decide,
    extract_entities_location_emits_all_codes wDSD wLocationList rfl (by decide)⟩

/-- C8: a location code whose `Description` parsed as a single mapping makes
`extract_entities_location` raise a lookup error — that shape is handled in
`extract_concepts_continuous` (whose description reader accepts it) but not
in `extract_entities_location`. -/
theorem extract_entities_location_single_description_raises
    (dsd : DSD) (locs : CodeList) (c : Code) (s : String)
    (h1 : dsd.codeLists[1]? = some locs) (hc : c ∈ locs.codes)
    (hd : c.description = Desc.single s) :
    (∃ e, extract_entities_location dsd = .error e) ∧
      descTextConc (Desc.single s) = .ok s := by
  refine ⟨?_, rfl⟩
  have hfc : (match c.description with
      | Desc.single _ => Except.error "KeyError: 0"
      | Desc.seq [] => Except.error "IndexError"
      | Desc.seq (h :: _) => Except.ok (c.value, h))
      = (Except.error "KeyError: 0" : Except String (String × String)) := by
    rw [hd]
  obtain ⟨e, he⟩ := mapME_error_of_mem
    (fun c : Code => match c.description with
      | Desc.single _ => Except.error "KeyError: 0"
      | Desc.seq [] => Except.error "IndexError"
      | Desc.seq (h :: _) => Except.ok (c.value, h)) hc hfc
  exact ⟨e, by simp [extract_entities_location, h1, he]⟩

/-- Witness for C8: the USA code's `Description` parsed as a single dict. -/
theorem extract_entities_location_single_description_raises_witness :
    wBadLocDSD.codeLists[1]? = some wBadLocList ∧
      (⟨"USA", none, Desc.single "United States"⟩ : Code) ∈ wBadLocList.codes ∧
      (∃ e, extract_entities_location wBadLocDSD = .error e) ∧
      descTextConc (Desc.single "United States") = .ok "United States" :=
  ⟨rfl, by decide,
    (extract_entities_location_single_description_raises wBadLocDSD wBadLocList
      ⟨"USA", none, Desc.single "United States"⟩ "United States" rfl (by decide) rfl).1,
    (extract_entities_location_single_description_raises wBadLocDSD wBadLocList
      ⟨"USA", none, Desc.single "United States"⟩ "United States" rfl (by decide) rfl).2⟩

end UIS
